import Mathlib

/-!
Verification of the PDF image extraction service (`src/app.py`).

The Python program is shallowly embedded as executable Lean definitions.
External effects are modelled as explicit parameters:

* the PDF parser (`pypdf.PdfReader`) is modelled by giving the extractor an
  `Option (List (List ImageObject))`: `none` stands for "opening/parsing the
  document raised", `some pages` for the parsed ordered pages, each page being
  the ordered list of its embedded image objects;
* Python's built-in `hash` on the payload bytes is a parameter
  `fp : Bytes → Int` (deterministic within one process, collisions possible);
* the PIL codec (`Image.open`, `img.convert`, `img.save(format="PNG")`) is a
  `Codec` record whose `Option` results model raised exceptions;
* `random.randint(0, 9)` is an infinite digit stream `digit : Nat → Nat`
  consumed left to right (each call to `generate_random_number(30)` consumes
  the next 30 draws);
* the output directory is modelled as the list of `(filename, bytes)` pairs
  written, in write order.
-/

/-- Raw byte payloads (`bytes` in Python), as lists of byte values. -/
abbrev Bytes := List Nat

/-- One embedded PDF image object: `image.name` and `image.data` in pypdf. -/
structure ImageObject where
  name : String
  data : Bytes
deriving DecidableEq, Repr

/-- A decoded PIL image: its `mode` string (e.g. "RGB", "RGBA", "P", "LA")
and its (abstract) pixel content. -/
structure PILImage where
  mode : String
  content : Bytes
deriving DecidableEq, Repr

/-- The PIL operations used by `extract_images_from_pdf`, as an explicit
record. `decode` models `Image.open` on the payload (`none` = raised),
`convert img m` models `img.convert(m)`, `encodePNG` models
`img.save(buffer, format="PNG")` followed by `getvalue()` (`none` = raised). -/
structure Codec where
  decode : Bytes → Option PILImage
  convert : PILImage → String → PILImage
  encodePNG : PILImage → Option Bytes

/-- Index of the last occurrence of `c` in the character list, `-1` when
absent: Python's `str.rfind` restricted to a single character. -/
def rfindIdx (c : Char) : List Char → Int
  | [] => -1
  | x :: xs =>
    let r := rfindIdx c xs
    if 0 ≤ r then r + 1 else if x = c then 0 else -1

/-- The extension component of `os.path.splitext(p)`: the suffix of `p`
starting at the last dot, provided that dot lies after the last `/` and some
character strictly between them is not itself a dot (so leading dots of the
basename never start an extension), else the empty string.  This is CPython's
`posixpath.splitext` algorithm. -/
def splitext_ext (p : String) : String :=
  let cs := p.data
  let sepIndex := rfindIdx '/' cs
  let dotIndex := rfindIdx '.' cs
  if sepIndex < dotIndex then
    let lo := (sepIndex + 1).toNat
    let hi := dotIndex.toNat
    if (List.range (hi - lo)).any (fun k => cs.getD (lo + k) '.' ≠ '.') then
      String.mk (cs.drop hi)
    else ""
  else ""

/-- `str.lower()`, character by character.  The extensions handled by the
program are ASCII, where `Char.toLower` agrees with Python's `lower`. -/
def lowerStr (s : String) : String :=
  String.mk (s.data.map Char.toLower)

/-- `os.path.splitext(image.name)[1].lower()` (line 46 of `src/app.py`):
the declared extension of an image object, lower-cased. -/
def declaredExt (name : String) : String :=
  lowerStr (splitext_ext name)

/-- `generate_random_number` (lines 25-27 of `src/app.py`):
`''.join([str(random.randint(0, 9)) for _ in range(length)])`, with the
RNG draws supplied by the stream `digit`, starting at position `off`. -/
def generate_random_number (digit : Nat → Nat) (off : Nat) (length : Nat) : String :=
  String.join ((List.range length).map (fun i => toString (digit (off + i))))

/-- The naming branch of lines 63-69 of `src/app.py`: the filename pattern is
selected by `image_count`, the running number of images written so far. -/
def namingPolicy (image_count : Nat) (random_number : String) (ext : String) : String :=
  if image_count = 0 then "user-img-" ++ random_number ++ ext
  else if image_count = 1 then "sign-img-" ++ random_number ++ ext
  else random_number ++ ext

/-- Lines 48-57 of `src/app.py` seen as one payload transformation:
for a JPEG2000 extension, decode, convert to RGB when the mode is exactly
"RGBA" or "P", re-encode as PNG and replace the extension by ".png";
`none` models the `except` path (decode or re-encode raised).  Every other
extension passes through unchanged. -/
def normalizeImage (c : Codec) (image_data : Bytes) (ext : String) : Option (Bytes × String) :=
  if ext = ".jp2" ∨ ext = ".jpx" then
    match c.decode image_data with
    | none => none
    | some img0 =>
      let img := if img0.mode = "RGBA" ∨ img0.mode = "P" then c.convert img0 "RGB" else img0
      match c.encodePNG img with
      | none => none
      | some bytes => some (bytes, ".png")
  else
    some (image_data, ext)

/-- The mutable state of one `extract_images_from_pdf` call:
`seen_images`, `extracted_files` and `image_count` are the variables of
lines 33-35; `store` records the files written to `output_path` in write
order; `roff` is the position reached in the RNG digit stream. -/
structure ExtractState where
  seen_images : List Int
  extracted_files : List String
  image_count : Nat
  store : List (String × Bytes)
  roff : Nat
deriving DecidableEq, Repr

/-- The state at the top of the extraction loop (lines 33-35). -/
def initState : ExtractState := ⟨[], [], 0, [], 0⟩

/-- One iteration of the inner loop of `extract_images_from_pdf`
(lines 38-76 of `src/app.py`): hash the payload; skip if already seen;
otherwise record the hash, normalize, and on success write the file named by
`namingPolicy` at the current `image_count`. -/
def processImage (fp : Bytes → Int) (c : Codec) (digit : Nat → Nat)
    (st : ExtractState) (image : ImageObject) : ExtractState :=
  let image_data := image.data
  let image_hash := fp image_data
  if image_hash ∈ st.seen_images then st
  else
    let st1 := { st with seen_images := image_hash :: st.seen_images }
    let ext := declaredExt image.name
    match normalizeImage c image_data ext with
    | none => st1
    | some de =>
      let random_number := generate_random_number digit st1.roff 30
      let image_filename := namingPolicy st1.image_count random_number de.2
      { st1 with
        extracted_files := st1.extracted_files ++ [image_filename],
        image_count := st1.image_count + 1,
        store := st1.store ++ [(image_filename, de.1)],
        roff := st1.roff + 30 }

/-- Folding the loop body over a flat list of image objects. -/
def stAfter (fp : Bytes → Int) (c : Codec) (digit : Nat → Nat)
    (st : ExtractState) (imgs : List ImageObject) : ExtractState :=
  imgs.foldl (processImage fp c digit) st

/-- The nested loops `for page in reader.pages: for image in page.images:`
(lines 37-38 of `src/app.py`). -/
def extractPages (fp : Bytes → Int) (c : Codec) (digit : Nat → Nat)
    (st : ExtractState) (pages : List (List ImageObject)) : ExtractState :=
  pages.foldl (fun st page => page.foldl (processImage fp c digit) st) st

/-- The whole guarded body of `extract_images_from_pdf`: `none` input models
`PdfReader(pdf_file_path)` raising, in which case the `except` branch of
lines 80-82 leaves the initial state (no files written). -/
def extractState (fp : Bytes → Int) (c : Codec) (digit : Nat → Nat)
    (parsed : Option (List (List ImageObject))) : ExtractState :=
  match parsed with
  | none => initState
  | some pages => extractPages fp c digit initState pages

/-- `extract_images_from_pdf` (lines 29-82 of `src/app.py`): the returned
value is the `extracted_files` list. -/
def extract_images_from_pdf (fp : Bytes → Int) (c : Codec) (digit : Nat → Nat)
    (parsed : Option (List (List ImageObject))) : List String :=
  (extractState fp c digit parsed).extracted_files

/-- Observation of the loop: for each image object in turn, whether its
iteration wrote a file (detected by `image_count` advancing). -/
def writtenFlags (fp : Bytes → Int) (c : Codec) (digit : Nat → Nat) :
    ExtractState → List ImageObject → List Bool
  | _, [] => []
  | st, img :: rest =>
    let st1 := processImage fp c digit st img
    decide (st.image_count < st1.image_count) :: writtenFlags fp c digit st1 rest

/-- Specification-side mirror of §4.1/§8 of the spec: the list of filenames
the extraction should produce for a run of images that are all fresh and all
normalize successfully — one name per image, in encounter order, named by
position with a fresh 30-digit identifier each. -/
def expectedNames (c : Codec) (digit : Nat → Nat) :
    Nat → Nat → List ImageObject → List String
  | _, _, [] => []
  | count, roff, im :: rest =>
    match normalizeImage c im.data (declaredExt im.name) with
    | none => []
    | some de =>
      namingPolicy count (generate_random_number digit roff 30) de.2
        :: expectedNames c digit (count + 1) (roff + 30) rest

/-- PIL image modes that carry an alpha channel (Pillow mode semantics).
Used only to formalize the spec's phrase "the decoded color model has an
alpha channel". -/
def modeHasAlpha (m : String) : Bool :=
  m == "RGBA" || m == "LA" || m == "PA" || m == "RGBa" || m == "La"

/-- PIL image modes that are palette-indexed (Pillow mode semantics).
Used only to formalize the spec's phrase "is palette-indexed". -/
def modeIsPalette (m : String) : Bool :=
  m == "P" || m == "PA"

/-- JSON-like values appearing in the service's response dictionaries. -/
inductive JValue where
  | str : String → JValue
  | obj : List (String × JValue) → JValue

/-- `data.pop(k)` on a Python dict (keys are unique, so removing the single
entry for `k` is filtering it out), as an association list operation. -/
def dictPop (k : String) (d : List (String × JValue)) : List (String × JValue) :=
  d.filter (fun kv => kv.1 != k)

/-- `make_response` (lines 85-90 of `src/app.py`): drop any existing
"TG_Channel" entry, append `("TG_Channel", "@UNKNOWN_X_1337_BOT")` at the
end (Python dicts keep insertion order, and assignment to an absent key
appends), and pair the dictionary with the status code (200 at the call
sites that omit it). -/
def make_response (data : List (String × JValue)) (status : Nat) :
    List (String × JValue) × Nat :=
  let d1 := if data.any (fun kv => kv.1 == "TG_Channel") then dictPop "TG_Channel" data else data
  (d1 ++ [("TG_Channel", JValue.str "@UNKNOWN_X_1337_BOT")], status)

/-- The result-list shape promised by §4.4/§8 of the spec: the entry at each
position `k` is `namingPolicy k` applied to a 30-character decimal identifier
and some extension. -/
def filesNamed (files : List String) : Prop :=
  ∀ k (hk : k < files.length), ∃ rn ext, rn.length = 30 ∧ (∀ ch ∈ rn.data, ch.isDigit)
    ∧ files.get ⟨k, hk⟩ = namingPolicy k rn ext

/-- A concrete fingerprint function for witnesses: the first byte of the
payload. -/
def fpHead : Bytes → Int := fun b => (b.headD 0 : Int)

/-- A concrete RNG stream for witnesses: every draw is 3. -/
def dg3 : Nat → Nat := fun _ => 3

/-- A codec whose decoder always raises: a document whose JPEG2000 payloads
are all undecodable (e.g. truncated codestreams). -/
def cFail : Codec :=
  { decode := fun _ => none, convert := fun i _ => i, encodePNG := fun _ => none }

/-- A codec that decodes every payload to an "RGBA" image and re-encodes the
pixel content as is. -/
def cRGBA : Codec :=
  { decode := fun d => some ⟨"RGBA", d⟩,
    convert := fun i _ => ⟨"RGB", i.content⟩,
    encodePNG := fun i => some i.content }

/-- A codec that decodes every payload to an "LA" image (grayscale plus
alpha, a mode PIL's JPEG2000 decoder can produce) and whose PNG encoder
records whether the image it received had been converted to "RGB". -/
def cLA : Codec :=
  { decode := fun _ => some ⟨"LA", [5]⟩,
    convert := fun _ _ => ⟨"RGB", [5]⟩,
    encodePNG := fun i => some (if i.mode = "RGB" then [1] else [0]) }

theorem processImage_of_seen (fp : Bytes → Int) (c : Codec) (digit : Nat → Nat)
    (st : ExtractState) (image : ImageObject)
    (h : fp image.data ∈ st.seen_images) :
    processImage fp c digit st image = st := by
  unfold processImage
  simp [h]

theorem processImage_of_fail (fp : Bytes → Int) (c : Codec) (digit : Nat → Nat)
    (st : ExtractState) (image : ImageObject)
    (hns : fp image.data ∉ st.seen_images)
    (hf : normalizeImage c image.data (declaredExt image.name) = none) :
    processImage fp c digit st image
      = { st with seen_images := fp image.data :: st.seen_images } := by
  unfold processImage
  simp [hns, hf]

theorem processImage_of_ok (fp : Bytes → Int) (c : Codec) (digit : Nat → Nat)
    (st : ExtractState) (image : ImageObject) (de : Bytes × String)
    (hns : fp image.data ∉ st.seen_images)
    (hok : normalizeImage c image.data (declaredExt image.name) = some de) :
    processImage fp c digit st image
      = { st with
          seen_images := fp image.data :: st.seen_images,
          extracted_files := st.extracted_files
            ++ [namingPolicy st.image_count (generate_random_number digit st.roff 30) de.2],
          image_count := st.image_count + 1,
          store := st.store
            ++ [(namingPolicy st.image_count (generate_random_number digit st.roff 30) de.2, de.1)],
          roff := st.roff + 30 } := by
  unfold processImage
  simp [hns, hok]

theorem foldl_append_data : ∀ (l : List String) (s : String),
    (l.foldl (· ++ ·) s).data = s.data ++ (l.map String.data).flatten := by
  intro l
  induction l with
  | nil => intro s; simp
  | cons a l ih =>
    intro s
    simp [List.foldl, ih]

theorem join_data (l : List String) :
    (String.join l).data = (l.map String.data).flatten := by
  show (l.foldl (· ++ ·) "").data = _
  rw [foldl_append_data]
  rfl

theorem toString_digit_length (n : Nat) (h : n ≤ 9) : (toString n).data.length = 1 := by
  interval_cases n <;> decide

theorem toString_digit_isDigit (n : Nat) (h : n ≤ 9) :
    ∀ ch ∈ (toString n).data, ch.isDigit := by
  interval_cases n <;> decide

theorem gen_data (digit : Nat → Nat) (off n : Nat) :
    (generate_random_number digit off n).data
      = ((List.range n).map (fun i => (toString (digit (off + i))).data)).flatten := by
  rw [generate_random_number, join_data, List.map_map]
  rfl

theorem gen_length (digit : Nat → Nat) (off n : Nat) (h : ∀ i, digit i ≤ 9) :
    (generate_random_number digit off n).length = n := by
  show (generate_random_number digit off n).data.length = n
  rw [gen_data, List.length_flatten, List.map_map]
  have hmap : (List.range n).map (List.length ∘ fun i => (toString (digit (off + i))).data)
      = (List.range n).map (fun _ => 1) := by
    apply List.map_congr_left
    intro i _
    exact toString_digit_length _ (h _)
  rw [hmap, List.map_const']
  simp

theorem gen_isDigit (digit : Nat → Nat) (off n : Nat) (h : ∀ i, digit i ≤ 9) :
    ∀ ch ∈ (generate_random_number digit off n).data, ch.isDigit := by
  intro ch hch
  rw [gen_data] at hch
  rcases List.mem_flatten.mp hch with ⟨l, hl, hchl⟩
  rcases List.mem_map.mp hl with ⟨i, _, rfl⟩
  exact toString_digit_isDigit _ (h _) ch hchl

theorem processImage_seen_mem (fp : Bytes → Int) (c : Codec) (digit : Nat → Nat)
    (st : ExtractState) (image : ImageObject) (y : Int) :
    y ∈ (processImage fp c digit st image).seen_images
      ↔ y ∈ st.seen_images ∨ y = fp image.data := by
  by_cases h : fp image.data ∈ st.seen_images
  · rw [processImage_of_seen _ _ _ _ _ h]
    constructor
    · exact Or.inl
    · rintro (hy | rfl)
      · exact hy
      · exact h
  · cases hok : normalizeImage c image.data (declaredExt image.name) with
    | none =>
      rw [processImage_of_fail _ _ _ _ _ h hok]
      simp [List.mem_cons, or_comm]
    | some de =>
      rw [processImage_of_ok _ _ _ _ _ _ h hok]
      simp [List.mem_cons, or_comm]

theorem stAfter_nil (fp : Bytes → Int) (c : Codec) (digit : Nat → Nat) (st : ExtractState) :
    stAfter fp c digit st [] = st := rfl

theorem stAfter_cons (fp : Bytes → Int) (c : Codec) (digit : Nat → Nat)
    (st : ExtractState) (img : ImageObject) (rest : List ImageObject) :
    stAfter fp c digit st (img :: rest)
      = stAfter fp c digit (processImage fp c digit st img) rest := rfl

theorem stAfter_append (fp : Bytes → Int) (c : Codec) (digit : Nat → Nat)
    (st : ExtractState) (l1 l2 : List ImageObject) :
    stAfter fp c digit st (l1 ++ l2)
      = stAfter fp c digit (stAfter fp c digit st l1) l2 := by
  simp [stAfter, List.foldl_append]

theorem stAfter_seen (fp : Bytes → Int) (c : Codec) (digit : Nat → Nat) :
    ∀ (imgs : List ImageObject) (st : ExtractState) (x : Int),
      x ∈ (stAfter fp c digit st imgs).seen_images
        ↔ x ∈ st.seen_images ∨ ∃ im ∈ imgs, fp im.data = x := by
  intro imgs
  induction imgs with
  | nil => intro st x; simp [stAfter_nil]
  | cons img rest ih =>
    intro st x
    rw [stAfter_cons, ih, processImage_seen_mem]
    simp only [List.mem_cons]
    constructor
    · rintro (⟨hy | rfl⟩ | ⟨im, hm, he⟩)
      · exact Or.inl hy
      · exact Or.inr ⟨img, Or.inl rfl, rfl⟩
      · exact Or.inr ⟨im, Or.inr hm, he⟩
    · rintro (hy | ⟨im, hm | hm, he⟩)
      · exact Or.inl (Or.inl hy)
      · subst hm; exact Or.inl (Or.inr he.symm)
      · exact Or.inr ⟨im, hm, he⟩

theorem extractPages_join (fp : Bytes → Int) (c : Codec) (digit : Nat → Nat) :
    ∀ (pages : List (List ImageObject)) (st : ExtractState),
      extractPages fp c digit st pages = stAfter fp c digit st pages.flatten := by
  intro pages
  induction pages with
  | nil => intro st; rfl
  | cons p ps ih =>
    intro st
    simp only [extractPages, List.foldl, List.flatten_cons]
    rw [stAfter_append]
    exact ih _

theorem stAfter_names (fp : Bytes → Int) (c : Codec) (dg : Nat → Nat)
    (hd : ∀ i, dg i ≤ 9) :
    ∀ (imgs : List ImageObject) (st : ExtractState),
      st.image_count = st.extracted_files.length →
      filesNamed st.extracted_files →
      (stAfter fp c dg st imgs).image_count
          = (stAfter fp c dg st imgs).extracted_files.length
        ∧ filesNamed (stAfter fp c dg st imgs).extracted_files := by
  intro imgs
  induction imgs with
  | nil => intro st h1 h2; rw [stAfter_nil]; exact ⟨h1, h2⟩
  | cons img rest ih =>
    intro st h1 h2
    rw [stAfter_cons]
    by_cases hs : fp img.data ∈ st.seen_images
    · rw [processImage_of_seen _ _ _ _ _ hs]
      exact ih st h1 h2
    · cases hok : normalizeImage c img.data (declaredExt img.name) with
      | none =>
        rw [processImage_of_fail _ _ _ _ _ hs hok]
        exact ih _ h1 h2
      | some de =>
        rw [processImage_of_ok _ _ _ _ _ _ hs hok]
        apply ih
        · simp [h1]
        · intro k hk
          have hk1 : k < st.extracted_files.length + 1 := by simpa using hk
          by_cases hklt : k < st.extracted_files.length
          · obtain ⟨rn, ext, hrn1, hrn2, hget⟩ := h2 k hklt
            refine ⟨rn, ext, hrn1, hrn2, ?_⟩
            rw [← hget]
            simp only [List.get_eq_getElem]
            exact List.getElem_append_left hklt
          · have hkeq : k = st.extracted_files.length := by omega
            subst hkeq
            refine ⟨generate_random_number dg st.roff 30, de.2,
              gen_length dg st.roff 30 hd, gen_isDigit dg st.roff 30 hd, ?_⟩
            have hx : (st.extracted_files
                ++ [namingPolicy st.image_count (generate_random_number dg st.roff 30) de.2]).get
                  ⟨st.extracted_files.length, by simpa using hk⟩
                = namingPolicy st.image_count (generate_random_number dg st.roff 30) de.2 := by
              simp only [List.get_eq_getElem]
              exact List.getElem_concat_length _ _ _ rfl _
            rw [show ((⟨fp img.data :: st.seen_images,
                st.extracted_files
                  ++ [namingPolicy st.image_count (generate_random_number dg st.roff 30) de.2],
                st.image_count + 1,
                st.store
                  ++ [(namingPolicy st.image_count (generate_random_number dg st.roff 30) de.2, de.1)],
                st.roff + 30⟩ : ExtractState)).extracted_files.get ⟨st.extracted_files.length, hk⟩
              = namingPolicy st.image_count (generate_random_number dg st.roff 30) de.2 from hx, h1]

theorem expectedNames_length (c : Codec) (dg : Nat → Nat) :
    ∀ (imgs : List ImageObject) (count roff : Nat),
      (∀ im ∈ imgs, normalizeImage c im.data (declaredExt im.name) ≠ none) →
      (expectedNames c dg count roff imgs).length = imgs.length := by
  intro imgs
  induction imgs with
  | nil => intro count roff _; rfl
  | cons img rest ih =>
    intro count roff hnorm
    cases hok : normalizeImage c img.data (declaredExt img.name) with
    | none => exact absurd hok (hnorm img (List.mem_cons_self _ _))
    | some de =>
      simp only [expectedNames, hok, List.length_cons]
      rw [ih _ _ (fun im hm => hnorm im (List.mem_cons_of_mem _ hm))]

theorem stAfter_files_exact (fp : Bytes → Int) (c : Codec) (dg : Nat → Nat) :
    ∀ (imgs : List ImageObject) (st : ExtractState),
      (∀ im ∈ imgs, fp im.data ∉ st.seen_images) →
      (imgs.map (fun im => fp im.data)).Nodup →
      (∀ im ∈ imgs, normalizeImage c im.data (declaredExt im.name) ≠ none) →
      (stAfter fp c dg st imgs).extracted_files
        = st.extracted_files ++ expectedNames c dg st.image_count st.roff imgs := by
  intro imgs
  induction imgs with
  | nil => intro st _ _ _; simp [stAfter_nil, expectedNames]
  | cons img rest ih =>
    intro st hfresh hnd hnorm
    have hs : fp img.data ∉ st.seen_images := hfresh img (List.mem_cons_self _ _)
    cases hok : normalizeImage c img.data (declaredExt img.name) with
    | none => exact absurd hok (hnorm img (List.mem_cons_self _ _))
    | some de =>
      rw [stAfter_cons, processImage_of_ok _ _ _ _ _ _ hs hok]
      rw [List.map_cons, List.nodup_cons] at hnd
      have hfresh2 : ∀ im ∈ rest, fp im.data ∉ fp img.data :: st.seen_images := by
        intro im hm
        simp only [List.mem_cons]
        rintro (he | hmem)
        · exact hnd.1 (he ▸ List.mem_map_of_mem _ hm)
        · exact hfresh im (List.mem_cons_of_mem _ hm) hmem
      rw [ih _ hfresh2 hnd.2 (fun im hm => hnorm im (List.mem_cons_of_mem _ hm))]
      simp only [expectedNames, hok]
      simp [List.append_assoc]

theorem writtenFlags_nil (fp : Bytes → Int) (c : Codec) (dg : Nat → Nat)
    (st : ExtractState) : writtenFlags fp c dg st [] = [] := rfl

theorem writtenFlags_cons (fp : Bytes → Int) (c : Codec) (dg : Nat → Nat)
    (st : ExtractState) (img : ImageObject) (rest : List ImageObject) :
    writtenFlags fp c dg st (img :: rest)
      = decide (st.image_count < (processImage fp c dg st img).image_count)
        :: writtenFlags fp c dg (processImage fp c dg st img) rest := rfl

theorem writtenFlags_length (fp : Bytes → Int) (c : Codec) (dg : Nat → Nat) :
    ∀ (imgs : List ImageObject) (st : ExtractState),
      (writtenFlags fp c dg st imgs).length = imgs.length := by
  intro imgs
  induction imgs with
  | nil => intro st; rfl
  | cons img rest ih => intro st; simp [writtenFlags_cons, ih]

theorem writtenFlags_append (fp : Bytes → Int) (c : Codec) (dg : Nat → Nat) :
    ∀ (l1 l2 : List ImageObject) (st : ExtractState),
      writtenFlags fp c dg st (l1 ++ l2)
        = writtenFlags fp c dg st l1
          ++ writtenFlags fp c dg (stAfter fp c dg st l1) l2 := by
  intro l1
  induction l1 with
  | nil => intro l2 st; simp [writtenFlags_nil, stAfter_nil]
  | cons img rest ih =>
    intro l2 st
    simp only [List.cons_append, writtenFlags_cons, stAfter_cons, ih]

theorem flag_false_of_seen (fp : Bytes → Int) (c : Codec) (dg : Nat → Nat)
    (st : ExtractState) (l1 l2 : List ImageObject) (img : ImageObject)
    (h : fp img.data ∈ (stAfter fp c dg st l1).seen_images) :
    writtenFlags fp c dg st (l1 ++ img :: l2)
      = writtenFlags fp c dg st l1
        ++ false :: writtenFlags fp c dg (stAfter fp c dg st l1) l2 := by
  rw [writtenFlags_append, writtenFlags_cons, processImage_of_seen _ _ _ _ _ h]
  simp

theorem flag_false_of_fail (fp : Bytes → Int) (c : Codec) (dg : Nat → Nat)
    (st : ExtractState) (l1 l2 : List ImageObject) (img : ImageObject)
    (hns : fp img.data ∉ (stAfter fp c dg st l1).seen_images)
    (hf : normalizeImage c img.data (declaredExt img.name) = none) :
    writtenFlags fp c dg st (l1 ++ img :: l2)
      = writtenFlags fp c dg st l1
        ++ false :: writtenFlags fp c dg
            { stAfter fp c dg st l1 with
              seen_images := fp img.data :: (stAfter fp c dg st l1).seen_images } l2 := by
  rw [writtenFlags_append, writtenFlags_cons, processImage_of_fail _ _ _ _ _ hns hf]
  simp

theorem flag_true_of_ok (fp : Bytes → Int) (c : Codec) (dg : Nat → Nat)
    (st : ExtractState) (l1 l2 : List ImageObject) (img : ImageObject)
    (de : Bytes × String)
    (hns : fp img.data ∉ (stAfter fp c dg st l1).seen_images)
    (hok : normalizeImage c img.data (declaredExt img.name) = some de) :
    writtenFlags fp c dg st (l1 ++ img :: l2)
      = writtenFlags fp c dg st l1
        ++ true :: writtenFlags fp c dg
            (processImage fp c dg (stAfter fp c dg st l1) img) l2 := by
  rw [writtenFlags_append, writtenFlags_cons]
  rw [processImage_of_ok _ _ _ _ _ _ hns hok]
  simp

/-- C5: if the PDF document cannot be opened or parsed at all,
`extract_images_from_pdf` returns an empty list without raising, no output
file is written, and the outcome is observably identical to extracting from
a parsable PDF with zero embedded images. -/
theorem claim_C5 (fp : Bytes → Int) (c : Codec) (dg : Nat → Nat) :
    extract_images_from_pdf fp c dg none = []
      ∧ (extractState fp c dg none).store = []
      ∧ extractState fp c dg none = extractState fp c dg (some []) :=
  ⟨rfl, rfl, rfl⟩

/-- C6: when normalization fails for a single image that is not a duplicate,
that image alone is skipped — the seen set still records its fingerprint,
but no file is written and the success counter does not advance — and
extraction of the remaining images continues from exactly that state. -/
theorem claim_C6 (fp : Bytes → Int) (c : Codec) (dg : Nat → Nat)
    (st : ExtractState) (img : ImageObject) (rest : List ImageObject)
    (hns : fp img.data ∉ st.seen_images)
    (hf : normalizeImage c img.data (declaredExt img.name) = none) :
    processImage fp c dg st img
        = { st with seen_images := fp img.data :: st.seen_images }
      ∧ (processImage fp c dg st img).extracted_files = st.extracted_files
      ∧ (processImage fp c dg st img).image_count = st.image_count
      ∧ (processImage fp c dg st img).store = st.store
      ∧ stAfter fp c dg st (img :: rest)
          = stAfter fp c dg { st with seen_images := fp img.data :: st.seen_images } rest := by
  have h := processImage_of_fail fp c dg st img hns hf
  exact ⟨h, by rw [h], by rw [h], by rw [h], by rw [stAfter_cons, h]⟩

/-- Witness for C6 at a concrete input: a truncated JPEG2000 image is
skipped, only its fingerprint is recorded. -/
theorem claim_C6_witness :
    processImage fpHead cFail dg3 initState ⟨"x.jp2", [7]⟩
      = { initState with seen_images := fpHead [7] :: initState.seen_images } :=
  (claim_C6 fpHead cFail dg3 initState ⟨"x.jp2", [7]⟩ [] (by decide) (by decide)).1

/-- C7: for an image whose declared extension is neither ".jp2" nor ".jpx",
normalization is the identity, the written payload is byte-for-byte the raw
payload read from the PDF, and the filename carries the declared extension
unchanged. -/
theorem claim_C7 (fp : Bytes → Int) (c : Codec) (dg : Nat → Nat)
    (st : ExtractState) (img : ImageObject)
    (hns : fp img.data ∉ st.seen_images)
    (h1 : declaredExt img.name ≠ ".jp2") (h2 : declaredExt img.name ≠ ".jpx") :
    normalizeImage c img.data (declaredExt img.name)
        = some (img.data, declaredExt img.name)
      ∧ processImage fp c dg st img = { st with
          seen_images := fp img.data :: st.seen_images,
          extracted_files := st.extracted_files
            ++ [namingPolicy st.image_count (generate_random_number dg st.roff 30)
                  (declaredExt img.name)],
          image_count := st.image_count + 1,
          store := st.store
            ++ [(namingPolicy st.image_count (generate_random_number dg st.roff 30)
                  (declaredExt img.name), img.data)],
          roff := st.roff + 30 } := by
  have hn : normalizeImage c img.data (declaredExt img.name)
      = some (img.data, declaredExt img.name) := by
    unfold normalizeImage
    rw [if_neg]
    rintro (h | h)
    · exact h1 h
    · exact h2 h
  exact ⟨hn, processImage_of_ok fp c dg st img (img.data, declaredExt img.name) hns hn⟩

/-- Witness for C7 at a concrete input: a ".jpg" image passes through
unchanged. -/
theorem claim_C7_witness :
    normalizeImage cFail [3] (declaredExt "a.jpg") = some ([3], declaredExt "a.jpg") :=
  (claim_C7 fpHead cFail dg3 initState ⟨"a.jpg", [3]⟩ (by decide) (by decide) (by decide)).1

/-- C8: `generate_random_number` returns a string of exactly the requested
number of characters, each an ASCII decimal digit, one per RNG draw. -/
theorem claim_C8 (digit : Nat → Nat) (off n : Nat) (h : ∀ i, digit i ≤ 9) :
    (generate_random_number digit off n).length = n
      ∧ ∀ ch ∈ (generate_random_number digit off n).data, ch.isDigit :=
  ⟨gen_length digit off n h, gen_isDigit digit off n h⟩

/-- Witness for C8 at a concrete input: thirty draws of the digit 3. -/
theorem claim_C8_witness :
    (generate_random_number dg3 0 30).length = 30
      ∧ ∀ ch ∈ (generate_random_number dg3 0 30).data, ch.isDigit :=
  claim_C8 dg3 0 30 (fun _ => show (3:Nat) ≤ 9 by decide)

theorem lookup_keyfree_append (k : String) (v : JValue) :
    ∀ (l : List (String × JValue)), (∀ kv ∈ l, (kv.1 == k) = false) →
      List.lookup k (l ++ [(k, v)]) = some v := by
  intro l
  induction l with
  | nil => simp [List.lookup]
  | cons a rest ih =>
    intro h
    have ha : (a.1 == k) = false := h a (List.mem_cons_self _ _)
    have ha2 : (k == a.1) = false := by
      rw [beq_eq_false_iff_ne] at ha ⊢
      exact fun he => ha he.symm
    simp only [List.cons_append, List.lookup, ha2]
    exact ih (fun kv hm => h kv (List.mem_cons_of_mem _ hm))

/-- C10: for every input dictionary and status code, `make_response` returns
a body whose "TG_Channel" entry is exactly "@UNKNOWN_X_1337_BOT" (any
caller-supplied entry under that key is removed and replaced by this single
entry at the end), while every other entry of the input dictionary is
preserved unchanged and in order, and the status code is passed through. -/
theorem claim_C10 (data : List (String × JValue)) (status : Nat) :
    (make_response data status).1.lookup "TG_Channel"
        = some (JValue.str "@UNKNOWN_X_1337_BOT")
      ∧ (make_response data status).1.filter (fun kv => kv.1 != "TG_Channel")
          = data.filter (fun kv => kv.1 != "TG_Channel")
      ∧ (make_response data status).1.filter (fun kv => kv.1 == "TG_Channel")
          = [("TG_Channel", JValue.str "@UNKNOWN_X_1337_BOT")]
      ∧ (make_response data status).2 = status := by
  have hd1 : ∀ kv ∈ (if data.any (fun kv => kv.1 == "TG_Channel")
      then dictPop "TG_Channel" data else data), (kv.1 == "TG_Channel") = false := by
    by_cases hany : data.any (fun kv => kv.1 == "TG_Channel")
    · rw [if_pos hany]
      intro kv hm
      have := (List.mem_filter.mp hm).2
      simpa using this
    · rw [if_neg hany]
      intro kv hm
      by_contra hc
      exact hany (List.any_eq_true.mpr ⟨kv, hm, by simpa using hc⟩)
  refine ⟨?_, ?_, ?_, rfl⟩
  · exact lookup_keyfree_append _ _ _ hd1
  · show ((if data.any (fun kv => kv.1 == "TG_Channel")
        then dictPop "TG_Channel" data else data)
        ++ [("TG_Channel", JValue.str "@UNKNOWN_X_1337_BOT")]).filter
          (fun kv => kv.1 != "TG_Channel") = _
    rw [List.filter_append]
    have h2 : ([("TG_Channel", JValue.str "@UNKNOWN_X_1337_BOT")] :
        List (String × JValue)).filter (fun kv => kv.1 != "TG_Channel") = [] := rfl
    rw [h2, List.append_nil]
    by_cases hany : data.any (fun kv => kv.1 == "TG_Channel")
    · rw [if_pos hany]
      show (data.filter _).filter _ = _
      rw [List.filter_filter]
      simp
    · rw [if_neg hany]
  · show ((if data.any (fun kv => kv.1 == "TG_Channel")
        then dictPop "TG_Channel" data else data)
        ++ [("TG_Channel", JValue.str "@UNKNOWN_X_1337_BOT")]).filter
          (fun kv => kv.1 == "TG_Channel") = _
    rw [List.filter_append]
    have h1 : (if data.any (fun kv => kv.1 == "TG_Channel")
        then dictPop "TG_Channel" data else data).filter
          (fun kv => kv.1 == "TG_Channel") = [] := by
      rw [List.filter_eq_nil_iff]
      intro kv hm
      simpa using hd1 kv hm
    rw [h1, List.nil_append]
    rfl

/-- C2: filenames are keyed on the running count of successfully written
images, which always equals the length of the returned list (skipped
duplicates and failed conversions do not advance it), and the filename at
every position k of the result follows the naming pattern for position k
with a fresh 30-character decimal identifier. -/
theorem claim_C2 (fp : Bytes → Int) (c : Codec) (dg : Nat → Nat)
    (parsed : Option (List (List ImageObject))) (hd : ∀ i, dg i ≤ 9) :
    (extractState fp c dg parsed).image_count
        = (extract_images_from_pdf fp c dg parsed).length
      ∧ filesNamed (extract_images_from_pdf fp c dg parsed) := by
  cases parsed with
  | none => exact ⟨rfl, fun k hk => absurd hk (Nat.not_lt_zero k)⟩
  | some pages =>
    have he : extractState fp c dg (some pages)
        = stAfter fp c dg initState pages.flatten := by
      show extractPages fp c dg initState pages = _
      exact extractPages_join fp c dg pages initState
    have h := stAfter_names fp c dg hd pages.flatten initState rfl
      (fun k hk => absurd hk (Nat.not_lt_zero k))
    show (extractState fp c dg (some pages)).image_count
        = (extractState fp c dg (some pages)).extracted_files.length
      ∧ filesNamed (extractState fp c dg (some pages)).extracted_files
    rw [he]
    exact h

/-- Witness for C2 at a concrete input: a one-image document. -/
theorem claim_C2_witness :
    (extractState fpHead cFail dg3 (some [[⟨"a.jpg", [0]⟩]])).image_count
      = (extract_images_from_pdf fpHead cFail dg3 (some [[⟨"a.jpg", [0]⟩]])).length :=
  (claim_C2 fpHead cFail dg3 (some [[⟨"a.jpg", [0]⟩]])
    (fun _ => show (3:Nat) ≤ 9 by decide)).1

/-- C1 fails as stated: a PDF with a single embedded image (so N = 1 and the
payloads are trivially pairwise distinct) whose JPEG2000 payload cannot be
decoded yields an empty result list instead of a list of length 1. -/
theorem claim_C1_counterexample :
    ((([[⟨"x.jp2", [7]⟩]] : List (List ImageObject)).flatten).map
        (fun im => im.data)).Nodup
      ∧ (([[⟨"x.jp2", [7]⟩]] : List (List ImageObject)).flatten).length = 1
      ∧ extract_images_from_pdf fpHead cFail dg3 (some [[⟨"x.jp2", [7]⟩]]) = [] := by
  exact ⟨by decide, rfl, by decide⟩

/-- C1 (amended): for every parsed PDF with at least one image, whose image
payloads have pairwise distinct fingerprints under the content hash, and
whose every image normalizes successfully, extraction returns exactly one
filename per embedded image, ordered by extraction order (the full list is
the spec-side expectedNames mirror), with the position-0 name carrying the
user prefix, position 1 the signature prefix, and later positions
unprefixed, each with a fresh 30-digit identifier. -/
theorem claim_C1 (fp : Bytes → Int) (c : Codec) (dg : Nat → Nat)
    (pages : List (List ImageObject))
    (hd : ∀ i, dg i ≤ 9)
    (hN : 1 ≤ pages.flatten.length)
    (hfp : (pages.flatten.map (fun im => fp im.data)).Nodup)
    (hnorm : ∀ im ∈ pages.flatten,
      normalizeImage c im.data (declaredExt im.name) ≠ none) :
    (extract_images_from_pdf fp c dg (some pages)).length = pages.flatten.length
      ∧ extract_images_from_pdf fp c dg (some pages)
          = expectedNames c dg 0 0 pages.flatten
      ∧ filesNamed (extract_images_from_pdf fp c dg (some pages)) := by
  have he : extract_images_from_pdf fp c dg (some pages)
      = (stAfter fp c dg initState pages.flatten).extracted_files := by
    show (extractPages fp c dg initState pages).extracted_files = _
    rw [extractPages_join]
  have hex := stAfter_files_exact fp c dg pages.flatten initState
    (fun im _ => List.not_mem_nil _) hfp hnorm
  have hexp : extract_images_from_pdf fp c dg (some pages)
      = expectedNames c dg 0 0 pages.flatten := by
    rw [he, hex]
    rfl
  refine ⟨?_, hexp, ?_⟩
  · rw [hexp]
    exact expectedNames_length c dg pages.flatten 0 0 hnorm
  · have h := stAfter_names fp c dg hd pages.flatten initState rfl
      (fun k hk => absurd hk (Nat.not_lt_zero k))
    rw [he]
    exact h.2

/-- Witness for C1 (amended) at a concrete input: a two-page document with
three byte-distinct non-JPEG2000 images. -/
theorem claim_C1_witness :
    (extract_images_from_pdf fpHead cFail dg3
        (some [[⟨"a.jpg", [0]⟩, ⟨"b.png", [1]⟩], [⟨"c.gif", [2]⟩]])).length
      = ([[⟨"a.jpg", [0]⟩, ⟨"b.png", [1]⟩], [⟨"c.gif", [2]⟩]] :
          List (List ImageObject)).flatten.length :=
  (claim_C1 fpHead cFail dg3 [[⟨"a.jpg", [0]⟩, ⟨"b.png", [1]⟩], [⟨"c.gif", [2]⟩]]
    (fun _ => show (3:Nat) ≤ 9 by decide) (by decide) (by decide) (by decide)).1

/-- C3 fails as stated: when the same payload occurs K = 2 times but its
first occurrence fails JPEG2000 conversion, zero (not exactly one) of the
occurrences yields a written file. -/
theorem claim_C3_counterexample :
    (([[⟨"x.jp2", [7]⟩, ⟨"x.jp2", [7]⟩]] : List (List ImageObject)).flatten.filter
        (fun im => im.data == [7])).length = 2
      ∧ extract_images_from_pdf fpHead cFail dg3
          (some [[⟨"x.jp2", [7]⟩, ⟨"x.jp2", [7]⟩]]) = []
      ∧ (extractState fpHead cFail dg3
          (some [[⟨"x.jp2", [7]⟩, ⟨"x.jp2", [7]⟩]])).store = [] := by
  exact ⟨by decide, by decide, by decide⟩

/-- C3 (amended): at most one occurrence of any byte payload yields a
written file, always the first in encounter order.  For the occurrence at
any position of the document: (a) if a byte-identical occurrence precedes
it, processing it leaves the extraction state entirely unchanged (no file,
no count increment) and its written-flag is false; (b) if its fingerprint
is fresh at its turn and its normalization succeeds, it is written (its
written-flag is true); (c) if its fingerprint is already seen or its
normalization fails, it is not written.  So exactly one occurrence of a
payload is written precisely when the payload's first occurrence survives,
and then it is that first occurrence. -/
theorem claim_C3 (fp : Bytes → Int) (c : Codec) (dg : Nat → Nat)
    (pages : List (List ImageObject)) (l1 l2 : List ImageObject)
    (img : ImageObject)
    (hsplit : pages.flatten = l1 ++ img :: l2) :
    ((∃ e ∈ l1, e.data = img.data) →
        stAfter fp c dg initState (l1 ++ [img]) = stAfter fp c dg initState l1
          ∧ ∃ f1 f2, writtenFlags fp c dg initState pages.flatten
              = f1 ++ false :: f2 ∧ f1.length = l1.length)
      ∧ (fp img.data ∉ (stAfter fp c dg initState l1).seen_images →
          normalizeImage c img.data (declaredExt img.name) ≠ none →
            ∃ f1 f2, writtenFlags fp c dg initState pages.flatten
              = f1 ++ true :: f2 ∧ f1.length = l1.length)
      ∧ (fp img.data ∈ (stAfter fp c dg initState l1).seen_images
          ∨ normalizeImage c img.data (declaredExt img.name) = none →
            ∃ f1 f2, writtenFlags fp c dg initState pages.flatten
              = f1 ++ false :: f2 ∧ f1.length = l1.length) := by
  refine ⟨?_, ?_, ?_⟩
  · rintro ⟨e, he, hedata⟩
    have hseen : fp img.data ∈ (stAfter fp c dg initState l1).seen_images := by
      rw [stAfter_seen]
      exact Or.inr ⟨e, he, by rw [hedata]⟩
    constructor
    · rw [stAfter_append, stAfter_cons, stAfter_nil,
        processImage_of_seen _ _ _ _ _ hseen]
    · rw [hsplit, flag_false_of_seen _ _ _ _ _ _ _ hseen]
      exact ⟨_, _, rfl, writtenFlags_length _ _ _ l1 _⟩
  · intro hns hnorm
    cases hok : normalizeImage c img.data (declaredExt img.name) with
    | none => exact absurd hok hnorm
    | some de =>
      rw [hsplit, flag_true_of_ok _ _ _ _ _ _ _ _ hns hok]
      exact ⟨_, _, rfl, writtenFlags_length _ _ _ l1 _⟩
  · rintro (hs | hf)
    · rw [hsplit, flag_false_of_seen _ _ _ _ _ _ _ hs]
      exact ⟨_, _, rfl, writtenFlags_length _ _ _ l1 _⟩
    · by_cases hs2 : fp img.data ∈ (stAfter fp c dg initState l1).seen_images
      · rw [hsplit, flag_false_of_seen _ _ _ _ _ _ _ hs2]
        exact ⟨_, _, rfl, writtenFlags_length _ _ _ l1 _⟩
      · rw [hsplit, flag_false_of_fail _ _ _ _ _ _ _ hs2 hf]
        exact ⟨_, _, rfl, writtenFlags_length _ _ _ l1 _⟩

/-- Witness for C3 (amended) at a concrete input: a page repeating the same
JPEG image twice — the duplicate is a no-op — and the surviving first
occurrence is written. -/
theorem claim_C3_witness :
    (stAfter fpHead cFail dg3 initState [⟨"a.jpg", [0]⟩, ⟨"a.jpg", [0]⟩]
        = stAfter fpHead cFail dg3 initState [⟨"a.jpg", [0]⟩])
      ∧ ∃ f1 f2, writtenFlags fpHead cFail dg3 initState
            ([[⟨"a.jpg", [0]⟩, ⟨"a.jpg", [0]⟩]] :
              List (List ImageObject)).flatten
          = f1 ++ true :: f2 ∧ f1.length = ([] : List ImageObject).length :=
  ⟨((claim_C3 fpHead cFail dg3 [[⟨"a.jpg", [0]⟩, ⟨"a.jpg", [0]⟩]]
      [⟨"a.jpg", [0]⟩] [] ⟨"a.jpg", [0]⟩ rfl).1 (by decide)).1,
    (claim_C3 fpHead cFail dg3 [[⟨"a.jpg", [0]⟩, ⟨"a.jpg", [0]⟩]]
      [] [⟨"a.jpg", [0]⟩] ⟨"a.jpg", [0]⟩ rfl).2.1 (by decide) (by decide)⟩

/-- C9: the fingerprint is recorded in the seen set before normalization is
attempted, so when the first occurrence of a payload fails conversion, that
occurrence and every later byte-identical occurrence have a false
written-flag: the payload yields zero written files in the whole document,
whatever a later occurrence would have converted to. -/
theorem claim_C9 (fp : Bytes → Int) (c : Codec) (dg : Nat → Nat)
    (pages : List (List ImageObject)) (l1 : List ImageObject)
    (img : ImageObject) (l2 : List ImageObject)
    (hsplit : pages.flatten = l1 ++ img :: l2)
    (hfirst : ∀ e ∈ l1, e.data ≠ img.data)
    (hfail : normalizeImage c img.data (declaredExt img.name) = none) :
    (∃ f1 f2, writtenFlags fp c dg initState pages.flatten
        = f1 ++ false :: f2 ∧ f1.length = l1.length)
      ∧ ∀ m1 im m2, l2 = m1 ++ im :: m2 → im.data = img.data →
          ∃ g1 g2, writtenFlags fp c dg initState pages.flatten
            = g1 ++ false :: g2 ∧ g1.length = l1.length + 1 + m1.length := by
  constructor
  · by_cases hs : fp img.data ∈ (stAfter fp c dg initState l1).seen_images
    · rw [hsplit, flag_false_of_seen _ _ _ _ _ _ _ hs]
      exact ⟨_, _, rfl, writtenFlags_length _ _ _ l1 _⟩
    · rw [hsplit, flag_false_of_fail _ _ _ _ _ _ _ hs hfail]
      exact ⟨_, _, rfl, writtenFlags_length _ _ _ l1 _⟩
  · intro m1 im m2 hl2 hdata
    have hre : pages.flatten = (l1 ++ img :: m1) ++ im :: m2 := by
      rw [hsplit, hl2]
      simp
    have hseen : fp im.data
        ∈ (stAfter fp c dg initState (l1 ++ img :: m1)).seen_images := by
      rw [stAfter_seen]
      exact Or.inr ⟨img, by simp, by rw [hdata]⟩
    rw [hre, flag_false_of_seen _ _ _ _ _ _ _ hseen]
    refine ⟨_, _, rfl, ?_⟩
    rw [writtenFlags_length]
    simp only [List.length_append, List.length_cons]
    omega

/-- Witness for C9 at a concrete input: two byte-identical JPEG2000 images
whose shared payload cannot be decoded. -/
theorem claim_C9_witness :
    ∃ f1 f2, writtenFlags fpHead cFail dg3 initState
        ([[⟨"x.jp2", [7]⟩, ⟨"y.jp2", [7]⟩]] : List (List ImageObject)).flatten
      = f1 ++ false :: f2 ∧ f1.length = ([] : List ImageObject).length :=
  (claim_C9 fpHead cFail dg3 [[⟨"x.jp2", [7]⟩, ⟨"y.jp2", [7]⟩]]
    [] ⟨"x.jp2", [7]⟩ [⟨"y.jp2", [7]⟩] rfl (by decide) (by decide)).1

/-- C4 fails as stated: PIL's JPEG2000 decoder can produce an "LA" image
(grayscale with an alpha channel), and for it no conversion to a
three-channel model happens before PNG re-encoding: the encoder receives
the unconverted image (output payload [0]) and not the converted one
(which would give payload [1]). -/
theorem claim_C4_counterexample :
    modeHasAlpha "LA" = true
      ∧ cLA.decode [5] = some ⟨"LA", [5]⟩
      ∧ normalizeImage cLA [5] ".jp2" = some ([0], ".png")
      ∧ Option.map (fun b => (b, ".png"))
          (cLA.encodePNG (cLA.convert ⟨"LA", [5]⟩ "RGB")) = some ([1], ".png") := by
  exact ⟨rfl, rfl, by decide, by decide⟩

/-- C4 (amended): for a declared ".jp2" or ".jpx" extension the payload is
decoded and re-encoded as PNG — every successful output carries extension
".png" — and the prior conversion to a plain three-channel model is applied
exactly when the decoded mode is literally "RGBA" or "P"; those two modes do
fall under "has an alpha channel or is palette-indexed", but other
alpha-bearing modes (such as "LA") are left unconverted. -/
theorem claim_C4 (c : Codec) (data : Bytes) (ext : String) (img : PILImage)
    (hext : ext = ".jp2" ∨ ext = ".jpx") (hdec : c.decode data = some img) :
    normalizeImage c data ext
        = Option.map (fun b => (b, ".png"))
            (c.encodePNG (if img.mode = "RGBA" ∨ img.mode = "P"
              then c.convert img "RGB" else img))
      ∧ (∀ out, normalizeImage c data ext = some out → out.2 = ".png")
      ∧ ((img.mode = "RGBA" ∨ img.mode = "P")
          → (modeHasAlpha img.mode || modeIsPalette img.mode) = true) := by
  have h1 : normalizeImage c data ext
      = Option.map (fun b => (b, ".png"))
          (c.encodePNG (if img.mode = "RGBA" ∨ img.mode = "P"
            then c.convert img "RGB" else img)) := by
    unfold normalizeImage
    rw [if_pos hext, hdec]
    cases henc : c.encodePNG (if img.mode = "RGBA" ∨ img.mode = "P"
        then c.convert img "RGB" else img) with
    | none => simp [henc]
    | some bytes => simp [henc]
  refine ⟨h1, ?_, ?_⟩
  · intro out hout
    rw [h1] at hout
    rcases Option.map_eq_some'.mp hout with ⟨b, _, hb⟩
    rw [← hb]
  · rintro (hm | hm) <;> simp [modeHasAlpha, modeIsPalette, hm]

/-- Witness for C4 (amended) at a concrete input: an "RGBA" decode is
converted to "RGB" before PNG encoding. -/
theorem claim_C4_witness :
    normalizeImage cRGBA [2] ".jp2"
      = Option.map (fun b => (b, ".png"))
          (cRGBA.encodePNG (if ("RGBA" : String) = "RGBA" ∨ ("RGBA" : String) = "P"
            then cRGBA.convert ⟨"RGBA", [2]⟩ "RGB" else ⟨"RGBA", [2]⟩)) :=
  (claim_C4 cRGBA [2] ".jp2" ⟨"RGBA", [2]⟩ (Or.inl rfl) rfl).1
